import Mathlib

/-!
# Verification of the Truth Social ingestion pipeline

A shallow embedding of the resilient ingestion pipeline of
`monitor_trump.py` and `utils.py`: the alert store and processed-id
ledger, the per-post ingestion loop of `run_fetch_recent`, the persisted
store update of `save_alert`, `purge_simulated_alerts`, the candidate
ordering and retry/backoff loop of `fetch_json_with_retries`, the SOCKS
transport builder `_build_opener`, the proxy race
`race_fetch_json_via_pool`, and the escalation of `fetch_truth_posts`.

Network calls are modelled by their outcomes: a fetch attempt either
returns a decoded JSON value or fails, and timestamps are modelled as
naturals (the code only compares normalized UTC instants).  Everything
else follows the Python source line by line.
-/

namespace TruthScraper

/-- Python's `str.strip()`: drop leading and trailing whitespace. -/
def pyStrip (s : String) : String :=
  ⟨((s.data.dropWhile Char.isWhitespace).reverse.dropWhile Char.isWhitespace).reverse⟩

/-- Python's `str.lower()` on the ASCII scheme names the code compares. -/
def pyLower (s : String) : String :=
  ⟨s.data.map Char.toLower⟩

/-- Python's `"5" in scheme` membership test on a one-character needle. -/
def pyContains (s : String) (c : Char) : Bool :=
  s.data.contains c

/-- A raw upstream post as the ingestion loop reads it: `id` (later
trimmed), a best-effort created timestamp (`none` when the field is
missing or unparseable, in which case the code substitutes ingestion
time), and the derived plain-text content. -/
structure RawPost where
  id : String
  created_at : Option Nat
  content : String
deriving DecidableEq, Repr

/-- A persisted alert record as `save_alert` writes it.  `source` is
optional because records persisted by older runs may lack the field;
`purge_simulated_alerts` defaults a missing source to `"real"`. -/
structure AlertRecord where
  id : String
  created_at : Nat
  content : String
  source : Option String
  detected_at : Nat
deriving DecidableEq, Repr

/-- The best-effort created timestamp of a post: the parsed
`created_at` when present, else the ingestion time `now`
(`created_iso = post.get("created_at") or now`, re-normalized inside
`save_alert` with the same fallback). -/
def bestTs (now : Nat) (p : RawPost) : Nat :=
  p.created_at.getD now

/-- The alert record `run_fetch_recent` hands to `save_alert` for an
admitted post (it always passes `source="real"`). -/
def mkAlertRecord (now : Nat) (rid : String) (p : RawPost) : AlertRecord :=
  { id := rid
    created_at := bestTs now p
    content := p.content
    source := some "real"
    detected_at := now }

/-- The store update of `save_alert` (monitor_trump.py lines 673-680):
the new record is inserted at the front and the list is truncated to its
first 100 entries, then the whole file is rewritten. -/
def save_alert_store (alerts : List AlertRecord) (rec : AlertRecord) : List AlertRecord :=
  (rec :: alerts).take 100

/-- `processed_ids.add(post_id)`: Python set insertion, modelled on a
list up to membership. -/
def addProcessed (processed : List String) (pid : String) : List String :=
  if pid ∈ processed then processed else pid :: processed

/-- The mutable state of one ingestion run: the alert store, the
processed-id ledger and the `new_posts_count` counter. -/
structure IngestState where
  alerts : List AlertRecord
  processed : List String
  count : Nat
deriving DecidableEq, Repr

/-- One iteration of the per-post loop of `run_fetch_recent`
(monitor_trump.py lines 753-781).  `alertsEmpty` is the cold-start flag
computed once before the loop: when set, the post is admitted
unconditionally (with a synthesized id when the trimmed id is empty);
otherwise it is admitted iff its trimmed id is non-empty and not in the
ledger. -/
def processPost (now : Nat) (alertsEmpty : Bool) (st : IngestState) (p : RawPost) :
    IngestState :=
  let post_id := pyStrip p.id
  if alertsEmpty then
    let rid := if post_id = "" then "api_" ++ toString now else post_id
    { alerts := save_alert_store st.alerts (mkAlertRecord now rid p)
      processed := if post_id = "" then st.processed else addProcessed st.processed post_id
      count := st.count + 1 }
  else if post_id ≠ "" ∧ post_id ∉ st.processed then
    { alerts := save_alert_store st.alerts (mkAlertRecord now post_id p)
      processed := addProcessed st.processed post_id
      count := st.count + 1 }
  else
    st

/-- The ingestion phase of `run_fetch_recent` (monitor_trump.py lines
742-784): load the ledger, compute the cold-start flag from the current
store, fold the per-post loop over the fetched items, and persist.  The
returned state carries the new store, ledger and `new_posts_count`. -/
def run_fetch_recent_ingest (now : Nat) (alerts : List AlertRecord)
    (processed : List String) (items : List RawPost) : IngestState :=
  let alertsEmpty := alerts.isEmpty
  items.foldl (processPost now alertsEmpty) ⟨alerts, processed, 0⟩

/-- The adjacent-descending-timestamp check of the claimed store
invariant: each record's best-effort timestamp is at least its
successor's. -/
def sortedDescB : List AlertRecord → Bool
  | [] => true
  | [_] => true
  | a :: b :: t => decide (b.created_at ≤ a.created_at) && sortedDescB (b :: t)

/-- `purge_simulated_alerts` (monitor_trump.py lines 789-801): one
whole-file rewrite keeping exactly the records whose source (defaulting
to `"real"` when the field is missing) is not `"simulated"`, returning
how many were removed. -/
def purge_simulated_alerts (data : List AlertRecord) : List AlertRecord × Nat :=
  let filtered := data.filter (fun a => !(a.source.getD "real" == "simulated"))
  (filtered, data.length - filtered.length)

/-- The candidate list of `fetch_json_with_retries` (utils.py lines
266-272): when `use_free_proxies` is set the fetched proxy list comes
first, and the direct connection (`None`) is always appended as the last
fallback. -/
def candidateOrder (proxies : List String) (useFreeProxies : Bool) :
    List (Option String) :=
  (if useFreeProxies then proxies.map some else []) ++ [none]

/-- The sequence of candidates actually attempted by the main loop of
`fetch_json_with_retries` (utils.py lines 389-433): a candidate whose
opener cannot be built is skipped (`continue`), otherwise it is
attempted; the loop returns at the first candidate whose attempt budget
yields a success, and only then stops. -/
def attemptSeq (usable succ : Option String → Bool) :
    List (Option String) → List (Option String)
  | [] => []
  | c :: rest =>
    if usable c then
      if succ c then [c] else c :: attemptSeq usable succ rest
    else
      attemptSeq usable succ rest

/-- The sleeps performed inside one candidate's attempt loop of
`fetch_json_with_retries` (utils.py lines 418-431): attempt `i`
(0-based) that fails appends a sleep of `delay * (i + 1)` when `delay`
is non-zero; a successful attempt returns immediately.  `n` is the
remaining attempt budget. -/
def attemptSleeps (delay : Nat) (succ : Nat → Bool) : Nat → Nat → List Nat
  | _, 0 => []
  | i, n + 1 =>
    if succ i then []
    else (if delay = 0 then [] else [delay * (i + 1)]) ++ attemptSleeps delay succ (i + 1) n

/-- The full sleep trace of one candidate given its attempt budget. -/
def candidateSleeps (attempts delay : Nat) (succ : Nat → Bool) : List Nat :=
  attemptSleeps delay succ 0 attempts

/-- A parsed proxy URL as `urlparse` hands it to `_build_opener`:
scheme (already lowercased by the code before dispatch), optional
hostname and port, optional credentials. -/
structure ProxySpec where
  scheme : String
  host : Option String
  port : Option Nat
  username : Option String
  password : Option String
deriving DecidableEq, Repr

/-- The transport `_build_opener` produces: direct, an HTTP/HTTPS
forward proxy, or a SOCKS handler carrying the PySocks proxy type
(1 = SOCKS4, 2 = SOCKS5) and the credentials handed to
`SocksiPyHandler.__init__`. -/
inductive Opener where
  | direct : Opener
  | httpProxy (spec : ProxySpec) : Opener
  | socksHandler (proxyType : Nat) (host : String) (port : Nat)
      (username password : Option String) : Opener
deriving DecidableEq, Repr

/-- `_build_opener` of `fetch_json_with_retries` (utils.py lines
274-334).  `none` yields a direct opener.  A SOCKS scheme requires
PySocks (`socksAvailable`) and a hostname, defaults the port to 1080,
and forces the credentials to `None` unless the scheme contains `5`
(`is_socks5 = "5" in scheme`); any other scheme becomes an HTTP/HTTPS
forward-proxy opener. -/
def build_opener (socksAvailable : Bool) (proxyUrl : Option ProxySpec) :
    Option Opener :=
  match proxyUrl with
  | none => some Opener.direct
  | some parsed =>
    let scheme := pyLower parsed.scheme
    if scheme = "socks5" ∨ scheme = "socks5h" ∨ scheme = "socks4" ∨ scheme = "socks4a" then
      if !socksAvailable then none
      else
        let is_socks5 := pyContains scheme '5'
        let proxyType := if is_socks5 then 2 else 1
        match parsed.host with
        | none => none
        | some host =>
          let port := parsed.port.getD 1080
          let username := if is_socks5 then parsed.username else none
          let password := if is_socks5 then parsed.password else none
          some (Opener.socksHandler proxyType host port username password)
    else
      some (Opener.httpProxy parsed)

/-- The credentials `SocksiPyHandler.create_socks_connection` hands to
`socks.set_proxy` (utils.py lines 50-59): `self.username if
self.username else None`, so a missing or empty string becomes `None`;
a non-SOCKS opener performs no handshake. -/
def handshakeCreds : Opener → Option String × Option String
  | Opener.socksHandler _ _ _ u p =>
    (match u with
     | some s => if s = "" then none else some s
     | none => none,
     match p with
     | some s => if s = "" then none else some s
     | none => none)
  | _ => (none, none)

/-- The decoded JSON body one racing attempt can observe: a JSON array
(its payload abstracted to a list of naturals) or any other JSON
value. -/
inductive JVal where
  | arr (xs : List Nat) : JVal
  | nonArr : JVal
deriving DecidableEq, Repr

/-- One step of the shared result cell of `race_fetch_json_via_pool`
(monitor_trump.py lines 568-577): an attempt that decoded a JSON list
stores it only when the cell is still falsy (`None` or an empty list);
an exception or a non-list body leaves the cell alone. -/
def raceStep (res : Option (List Nat)) (o : Option JVal) : Option (List Nat) :=
  match o with
  | some (JVal.arr xs) =>
    match res with
    | none => some xs
    | some [] => some xs
    | some _ => res
  | _ => res

/-- `race_fetch_json_via_pool` / `race_fetch_json_via_socks5`
(monitor_trump.py lines 485-502 and 561-584) over the candidates'
outcomes listed in completion order: an empty candidate set returns
`None` immediately, otherwise the attempts fill the shared cell in
completion order and the final cell is returned (the early `break` only
stops the wait — a truthy cell is never overwritten, so it does not
change the value). -/
def race_fetch (outcomes : List (Option JVal)) : Option (List Nat) :=
  outcomes.foldl raceStep none

/-- Whether an attempt outcome decoded to a JSON list. -/
def isArrOutcome : Option JVal → Bool
  | some (JVal.arr _) => true
  | _ => false

/-- The first outcome in completion order that decoded to a non-empty
JSON list (spec-side companion used to characterize the race). -/
def firstNonemptyArr : List (Option JVal) → Option (List Nat)
  | [] => none
  | some (JVal.arr (x :: xs)) :: _ => some (x :: xs)
  | _ :: rest => firstNonemptyArr rest

/-- `fetch_truth_posts` (utils.py lines 436-478) with its two staged
network calls abstracted by their outcomes: return the primary result,
else the reduced-limit fallback result, else an empty list — never an
exception. -/
def fetch_truth_posts (primary fallback : Except String (List RawPost)) :
    List RawPost :=
  match primary with
  | Except.ok v => v
  | Except.error _ =>
    match fallback with
    | Except.ok v => v
    | Except.error _ => []

/-- The escalation of `run_fetch_recent` (monitor_trump.py lines
707-740): primary direct fetch, reduced-limit retry, then — when proxies
are allowed — the pool race, whose outcome may itself be an exception
(`return 0`), a non-list JSON value (`return 0`) or a list of items.
`none` means the function returns 0 without ingesting. -/
def runFetchEscalation (primary fallback : Except String (List RawPost))
    (allowProxy : Bool) (proxyOutcome : Except String (Option (List RawPost))) :
    Option (List RawPost) :=
  match primary with
  | Except.ok v => some v
  | Except.error _ =>
    match fallback with
    | Except.ok v => some v
    | Except.error _ =>
      if allowProxy then
        match proxyOutcome with
        | Except.ok (some items) => some items
        | Except.ok none => none
        | Except.error _ => none
      else
        none

/-- `run_fetch_recent` end to end: the escalation chooses the item list
(or gives up), the ingestion loop runs on it, and the count of newly
written alerts is returned — 0 whenever the escalation gave up. -/
def run_fetch_recent_model (primary fallback : Except String (List RawPost))
    (allowProxy : Bool) (proxyOutcome : Except String (Option (List RawPost)))
    (now : Nat) (alerts : List AlertRecord) (processed : List String) : Nat :=
  match runFetchEscalation primary fallback allowProxy proxyOutcome with
  | none => 0
  | some items => (run_fetch_recent_ingest now alerts processed items).count

/-! ## Helper lemmas about the ingestion loop -/

theorem mem_addProcessed_self (processed : List String) (pid : String) :
    pid ∈ addProcessed processed pid := by
  unfold addProcessed
  split <;> simp_all

theorem mem_addProcessed_of_mem (processed : List String) (pid q : String)
    (h : q ∈ processed) : q ∈ addProcessed processed pid := by
  unfold addProcessed
  split <;> simp_all

theorem processPost_processed_mono (now : Nat) (alertsEmpty : Bool)
    (st : IngestState) (p : RawPost) (pid : String) (h : pid ∈ st.processed) :
    pid ∈ (processPost now alertsEmpty st p).processed := by
  simp only [processPost]
  split
  · split
    · exact h
    · exact mem_addProcessed_of_mem _ _ _ h
  · split
    · exact mem_addProcessed_of_mem _ _ _ h
    · exact h

theorem foldl_processPost_processed_mono (now : Nat) (alertsEmpty : Bool)
    (items : List RawPost) :
    ∀ (st : IngestState) (pid : String), pid ∈ st.processed →
      pid ∈ (items.foldl (processPost now alertsEmpty) st).processed := by
  induction items with
  | nil => intro st pid h; exact h
  | cons p rest ih =>
    intro st pid h
    exact ih _ _ (processPost_processed_mono now alertsEmpty st p pid h)

theorem save_alert_store_eq (alerts : List AlertRecord) (rec : AlertRecord) :
    save_alert_store alerts rec = rec :: alerts.take 99 := rfl

theorem processPost_warm_alerts_ne (now : Nat) (st : IngestState) (p : RawPost)
    (h : st.alerts ≠ []) : (processPost now false st p).alerts ≠ [] := by
  simp only [processPost, Bool.false_eq_true, if_false]
  split
  · simp [save_alert_store_eq]
  · exact h

theorem foldl_processPost_warm_alerts_ne (now : Nat) (items : List RawPost) :
    ∀ st : IngestState, st.alerts ≠ [] →
      (items.foldl (processPost now false) st).alerts ≠ [] := by
  induction items with
  | nil => intro st h; exact h
  | cons p rest ih =>
    intro st h
    exact ih _ (processPost_warm_alerts_ne now st p h)

theorem foldl_processPost_warm_covers (now : Nat) (items : List RawPost) :
    ∀ st : IngestState, ∀ p ∈ items, pyStrip p.id = "" ∨
      pyStrip p.id ∈ (items.foldl (processPost now false) st).processed := by
  induction items with
  | nil => intro st p hp; cases hp
  | cons q rest ih =>
    intro st p hp
    rcases List.mem_cons.mp hp with h | h
    · subst h
      by_cases hid : pyStrip p.id = ""
      · exact Or.inl hid
      · refine Or.inr (foldl_processPost_processed_mono now false rest _ _ ?_)
        by_cases hmem : pyStrip p.id ∈ st.processed
        · exact processPost_processed_mono now false st p _ hmem
        · simp only [processPost, Bool.false_eq_true, if_false]
          rw [if_pos ⟨hid, hmem⟩]
          exact mem_addProcessed_self _ _
    · exact ih _ p h

theorem processPost_warm_skip (now : Nat) (st : IngestState) (p : RawPost)
    (h : pyStrip p.id = "" ∨ pyStrip p.id ∈ st.processed) :
    processPost now false st p = st := by
  simp only [processPost, Bool.false_eq_true, if_false]
  rw [if_neg]
  rcases h with h | h
  · simp [h]
  · simp [h]

theorem foldl_processPost_warm_id (now : Nat) (items : List RawPost) :
    ∀ st : IngestState,
      (∀ p ∈ items, pyStrip p.id = "" ∨ pyStrip p.id ∈ st.processed) →
      items.foldl (processPost now false) st = st := by
  induction items with
  | nil => intro st _; rfl
  | cons q rest ih =>
    intro st h
    have hq := h q (List.mem_cons_self q rest)
    rw [List.foldl_cons, processPost_warm_skip now st q hq]
    exact ih st (fun p hp => h p (List.mem_cons_of_mem q hp))

/-! ## Claim theorems: persistence and error handling -/

/-- C10: every `save_alert` call prepends the new record and truncates the
persisted store to its first 100 entries, so the store never exceeds 100
records; when the store is already full the oldest (last) record is
dropped, while the per-post ingestion step only ever adds ids to the
processed-id ledger, never removes them. -/
theorem save_alert_caps_store (alerts : List AlertRecord) (rec : AlertRecord) :
    save_alert_store alerts rec = rec :: alerts.take 99 ∧
    (save_alert_store alerts rec).length ≤ 100 ∧
    (save_alert_store alerts rec).head? = some rec ∧
    (alerts.length = 100 → save_alert_store alerts rec = rec :: alerts.dropLast) ∧
    (∀ (now : Nat) (alertsEmpty : Bool) (st : IngestState) (p : RawPost),
      ∀ pid ∈ st.processed, pid ∈ (processPost now alertsEmpty st p).processed) := by
  refine ⟨save_alert_store_eq alerts rec, ?_, rfl, ?_, ?_⟩
  · rw [save_alert_store_eq]
    simp only [List.length_cons, List.length_take]
    omega
  · intro h
    rw [save_alert_store_eq, List.dropLast_eq_take, h]
  · intro now alertsEmpty st p pid h
    exact processPost_processed_mono now alertsEmpty st p pid h

theorem countP_not_add_countP (p : AlertRecord → Bool) (l : List AlertRecord) :
    l.countP (fun a => !(p a)) + l.countP p = l.length := by
  induction l with
  | nil => rfl
  | cons a t ih =>
    rw [List.countP_cons, List.countP_cons, List.length_cons]
    cases h : p a <;> simp [h] <;> omega

/-- C9: `purge_simulated_alerts` keeps, in one whole-file rewrite and in
their original relative order, exactly the records whose source
(defaulting to `"real"` when missing) is not `"simulated"`, and returns
the number of removed records; on a store with one simulated and one
real record it returns 1 and only the real record remains. -/
theorem purge_simulated_removes_exactly (data : List AlertRecord) :
    (∀ a ∈ (purge_simulated_alerts data).1, a.source.getD "real" ≠ "simulated") ∧
    (purge_simulated_alerts data).1.Sublist data ∧
    (∀ a ∈ data, a.source.getD "real" ≠ "simulated" → a ∈ (purge_simulated_alerts data).1) ∧
    (purge_simulated_alerts data).2
      = data.countP (fun a => a.source.getD "real" == "simulated") ∧
    purge_simulated_alerts
        [⟨"s1", 3, "sim post", some "simulated", 4⟩, ⟨"r1", 5, "real post", some "real", 6⟩]
      = ([⟨"r1", 5, "real post", some "real", 6⟩], 1) := by
  refine ⟨?_, ?_, ?_, ?_, by decide⟩
  · intro a ha
    have := (List.mem_filter.mp ha).2
    simpa using this
  · exact List.filter_sublist data
  · intro a ha h
    exact List.mem_filter.mpr ⟨ha, by simpa using h⟩
  · show data.length - (data.filter _).length = _
    rw [← List.countP_eq_length_filter]
    have := countP_not_add_countP (fun a => a.source.getD "real" == "simulated") data
    omega

/-- C8: when the primary direct fetch, the reduced-limit fallback and the
proxy-pool race all fail (or the race yields a non-list body, or proxies
are disallowed), the orchestration returns an empty list respectively a
zero count to its caller instead of propagating an exception. -/
theorem fetch_failure_yields_empty (e1 e2 ep : String) (now : Nat)
    (alerts : List AlertRecord) (processed : List String)
    (po : Except String (Option (List RawPost))) :
    fetch_truth_posts (Except.error e1) (Except.error e2) = [] ∧
    runFetchEscalation (Except.error e1) (Except.error e2) false po = none ∧
    runFetchEscalation (Except.error e1) (Except.error e2) true (Except.error ep) = none ∧
    runFetchEscalation (Except.error e1) (Except.error e2) true (Except.ok none) = none ∧
    run_fetch_recent_model (Except.error e1) (Except.error e2) false po
        now alerts processed = 0 ∧
    run_fetch_recent_model (Except.error e1) (Except.error e2) true (Except.error ep)
        now alerts processed = 0 ∧
    run_fetch_recent_model (Except.error e1) (Except.error e2) true (Except.ok none)
        now alerts processed = 0 := by
  refine ⟨rfl, ?_, rfl, rfl, ?_, rfl, rfl⟩ <;>
    simp [runFetchEscalation, run_fetch_recent_model]

/-! ## Claim theorems: the resilient fetcher -/

/-- C4 counterexample: with one supplied proxy the candidate list starts
with the proxy and ends with the direct connection, and even when the
direct attempt is the one that succeeds (here `succ` holds exactly on
the direct candidate), the proxy is attempted before it — refuting both
"direct first" and "no proxy attempted when direct succeeds". -/
theorem direct_not_first_cex :
    candidateOrder ["socks5://proxy.example:1080"] true
      = [some "socks5://proxy.example:1080", none] ∧
    (candidateOrder ["socks5://proxy.example:1080"] true).head? ≠ some none ∧
    attemptSeq (fun _ => true) (fun c => decide (c = none))
        (candidateOrder ["socks5://proxy.example:1080"] true)
      = [some "socks5://proxy.example:1080", none] := by
  refine ⟨rfl, by decide, rfl⟩

/-- C4 (amended): `fetch_json_with_retries` appends the direct (no-proxy)
candidate after the supplied proxies, so candidates are tried
proxies-first in order with direct as the last fallback; whenever every
proxy attempt fails, every proxy is attempted and the direct attempt
comes last. -/
theorem fetcher_tries_proxies_first (ps : List String) (f : Option String → Bool)
    (hf : ∀ p ∈ ps, f (some p) = false) :
    candidateOrder ps true = ps.map some ++ [none] ∧
    attemptSeq (fun _ => true) f (candidateOrder ps true) = ps.map some ++ [none] := by
  refine ⟨rfl, ?_⟩
  show attemptSeq (fun _ => true) f (ps.map some ++ [none]) = ps.map some ++ [none]
  induction ps with
  | nil =>
    simp only [List.map_nil, List.nil_append, attemptSeq]
    cases h : f none <;> simp [h]
  | cons p t ih =>
    have hp := hf p (List.mem_cons_self p t)
    simp only [List.map_cons, List.cons_append, attemptSeq, hp, if_true,
      Bool.false_eq_true, if_false, List.append_eq]
    rw [ih (fun q hq => hf q (List.mem_cons_of_mem p hq))]

/-- C4 witness: the amended theorem at one supplied proxy whose attempt
fails. -/
theorem fetcher_tries_proxies_first_witness :
    (∀ p ∈ ["socks5://a:1"], (fun c => decide (c = (none : Option String))) (some p) = false) ∧
    (candidateOrder ["socks5://a:1"] true = ["socks5://a:1"].map some ++ [none] ∧
     attemptSeq (fun _ => true) (fun c => decide (c = (none : Option String)))
        (candidateOrder ["socks5://a:1"] true) = ["socks5://a:1"].map some ++ [none]) :=
  ⟨by decide, fetcher_tries_proxies_first ["socks5://a:1"] _ (by decide)⟩

/-- C5 counterexample: with an attempt budget of 2 and backoff 2 on a
candidate whose attempts all fail, the loop sleeps twice — `2 * 1`
between the attempts and `2 * 2` after the final attempt, just before
moving on — whereas a delay applied only between attempts on the same
candidate would allow at most one sleep. -/
theorem backoff_after_final_attempt_cex :
    candidateSleeps 2 2 (fun _ => false) = [2, 4] ∧
    ¬ ((candidateSleeps 2 2 (fun _ => false)).length ≤ 2 - 1) := by
  refine ⟨rfl, by decide⟩

theorem attemptSleeps_all_fail (delay : Nat) (h : delay ≠ 0) :
    ∀ n i, attemptSleeps delay (fun _ => false) i n
      = (List.range n).map (fun k => delay * (i + k + 1)) := by
  intro n
  induction n with
  | zero => intro i; rfl
  | succ m ih =>
    intro i
    rw [List.range_succ_eq_map, List.map_cons, List.map_map]
    simp only [attemptSleeps, Bool.false_eq_true, if_false, h]
    rw [ih (i + 1)]
    simp only [List.singleton_append, Nat.add_zero, Function.comp]
    congr 1
    apply List.map_congr_left
    intro k _
    congr 1
    omega

/-- C5 (amended): the failed attempt number `i` (1-based) on a candidate
is followed by a sleep of `backoff * i` whenever `backoff` is non-zero —
including the candidate's final attempt, so a backoff delay also
separates one candidate's last failure from the next candidate (or the
terminal raise); the trace of an all-failing candidate therefore has one
sleep per attempt. -/
theorem backoff_sleeps_after_every_failed_attempt (n delay : Nat) (h : delay ≠ 0) :
    candidateSleeps n delay (fun _ => false)
      = (List.range n).map (fun i => delay * (i + 1)) ∧
    (candidateSleeps n delay (fun _ => false)).length = n := by
  have he : candidateSleeps n delay (fun _ => false)
      = (List.range n).map (fun i => delay * (i + 1)) := by
    rw [candidateSleeps, attemptSleeps_all_fail delay h n 0]
    apply List.map_congr_left
    intro k _
    congr 1
    omega
  exact ⟨he, by rw [he, List.length_map, List.length_range]⟩

/-- C5 witness: the amended theorem at budget 2 and backoff 3. -/
theorem backoff_sleeps_after_every_failed_attempt_witness :
    (3 : Nat) ≠ 0 ∧
    (candidateSleeps 2 3 (fun _ => false)
        = (List.range 2).map (fun i => 3 * (i + 1)) ∧
     (candidateSleeps 2 3 (fun _ => false)).length = 2) :=
  ⟨by decide, backoff_sleeps_after_every_failed_attempt 2 3 (by decide)⟩

/-- C6: `_build_opener` forces both credentials to `None` for a
`socks4`/`socks4a` proxy spec even when the URL carries them, so the
SOCKS4 handshake never sees a username or password; for a
`socks5`/`socks5h` spec the credentials are passed through to the
handler unchanged. -/
theorem socks_credentials_policy (spec : ProxySpec) (host : String)
    (hh : spec.host = some host) :
    ((pyLower spec.scheme = "socks4" ∨ pyLower spec.scheme = "socks4a") →
      build_opener true (some spec)
        = some (Opener.socksHandler 1 host (spec.port.getD 1080) none none) ∧
      (∀ o, build_opener true (some spec) = some o → handshakeCreds o = (none, none))) ∧
    ((pyLower spec.scheme = "socks5" ∨ pyLower spec.scheme = "socks5h") →
      build_opener true (some spec)
        = some (Opener.socksHandler 2 host (spec.port.getD 1080)
            spec.username spec.password)) := by
  constructor
  · intro h4
    have hb : build_opener true (some spec)
        = some (Opener.socksHandler 1 host (spec.port.getD 1080) none none) := by
      rcases h4 with h | h <;>
        simp [build_opener, h, hh, show pyContains "socks4" '5' = false from rfl,
          show pyContains "socks4a" '5' = false from rfl]
    refine ⟨hb, ?_⟩
    intro o ho
    rw [hb] at ho
    cases ho
    rfl
  · intro h5
    rcases h5 with h | h <;>
      simp [build_opener, h, hh, show pyContains "socks5" '5' = true from rfl,
        show pyContains "socks5h" '5' = true from rfl]

/-- C6 witness: the policy at a concrete `socks4://user:pass@h:9` spec. -/
theorem socks_credentials_policy_witness :
    (⟨"socks4", some "h", some 9, some "user", some "pass"⟩ : ProxySpec).host = some "h" ∧
    (((pyLower (⟨"socks4", some "h", some 9, some "user", some "pass"⟩ : ProxySpec).scheme
          = "socks4" ∨
       pyLower (⟨"socks4", some "h", some 9, some "user", some "pass"⟩ : ProxySpec).scheme
          = "socks4a") →
      build_opener true (some ⟨"socks4", some "h", some 9, some "user", some "pass"⟩)
        = some (Opener.socksHandler 1 "h"
            ((⟨"socks4", some "h", some 9, some "user", some "pass"⟩ : ProxySpec).port.getD 1080)
            none none) ∧
      (∀ o, build_opener true (some ⟨"socks4", some "h", some 9, some "user", some "pass"⟩)
          = some o → handshakeCreds o = (none, none))) ∧
     ((pyLower (⟨"socks4", some "h", some 9, some "user", some "pass"⟩ : ProxySpec).scheme
          = "socks5" ∨
       pyLower (⟨"socks4", some "h", some 9, some "user", some "pass"⟩ : ProxySpec).scheme
          = "socks5h") →
      build_opener true (some ⟨"socks4", some "h", some 9, some "user", some "pass"⟩)
        = some (Opener.socksHandler 2 "h"
            ((⟨"socks4", some "h", some 9, some "user", some "pass"⟩ : ProxySpec).port.getD 1080)
            (some "user") (some "pass")))) :=
  ⟨rfl, socks_credentials_policy ⟨"socks4", some "h", some 9, some "user", some "pass"⟩ "h" rfl⟩

/-! ## Claim theorems: the racing fetch -/

theorem foldl_raceStep_absorb (x : Nat) (xs : List Nat) (os : List (Option JVal)) :
    os.foldl raceStep (some (x :: xs)) = some (x :: xs) := by
  induction os with
  | nil => rfl
  | cons o rest ih =>
    have : raceStep (some (x :: xs)) o = some (x :: xs) := by
      cases o with
      | none => rfl
      | some v => cases v <;> rfl
    rw [List.foldl_cons, this, ih]

theorem foldl_raceStep_from_empty (os : List (Option JVal)) :
    os.foldl raceStep (some []) =
      (match firstNonemptyArr os with
       | some xs => some xs
       | none => some ([] : List Nat)) := by
  induction os with
  | nil => rfl
  | cons o rest ih =>
    cases o with
    | none => simpa [firstNonemptyArr, raceStep] using ih
    | some v =>
      cases v with
      | nonArr => simpa [firstNonemptyArr, raceStep] using ih
      | arr xs =>
        cases xs with
        | nil => simpa [firstNonemptyArr, raceStep] using ih
        | cons x t =>
          simp [firstNonemptyArr, raceStep, foldl_raceStep_absorb]

/-- C7 counterexample: an empty JSON array is a JSON list, yet when it is
the first list-valued response the race does not return it — a later
non-empty list overwrites it, so the race does not return the *first*
JSON-list response. -/
theorem race_first_list_cex :
    isArrOutcome (some (JVal.arr [])) = true ∧
    race_fetch [some (JVal.arr []), some (JVal.arr [1])] = some [1] ∧
    race_fetch [some (JVal.arr []), some (JVal.arr [1])] ≠ some [] := by
  refine ⟨rfl, rfl, by decide⟩

/-- C7 (amended): the race returns the first response in completion
order that is a *non-empty* JSON list (non-list and failed responses are
ignored, and an empty-list response is treated as "no result yet" and
may be overwritten); if responses include a JSON list but only empty
ones, it returns an empty list; otherwise — including the empty
candidate set — it returns `None`, and it never raises. -/
theorem race_returns_first_nonempty_list (outcomes : List (Option JVal)) :
    race_fetch outcomes =
      (match firstNonemptyArr outcomes with
       | some xs => some xs
       | none =>
         if outcomes.any isArrOutcome then some ([] : List Nat) else none) ∧
    race_fetch ([] : List (Option JVal)) = none := by
  refine ⟨?_, rfl⟩
  induction outcomes with
  | nil => rfl
  | cons o rest ih =>
    cases o with
    | none => simpa [firstNonemptyArr, race_fetch, raceStep, isArrOutcome] using ih
    | some v =>
      cases v with
      | nonArr => simpa [firstNonemptyArr, race_fetch, raceStep, isArrOutcome] using ih
      | arr xs =>
        cases xs with
        | nil =>
          show List.foldl raceStep (some []) rest = _
          rw [foldl_raceStep_from_empty rest]
          simp [firstNonemptyArr, isArrOutcome]
        | cons x t =>
          show List.foldl raceStep (some (x :: t)) rest = _
          rw [foldl_raceStep_absorb]
          simp [firstNonemptyArr]

/-! ## Claim theorems: ingestion order, idempotence and id uniqueness -/

theorem sortedDescB_cons_iff (a : AlertRecord) (l : List AlertRecord) :
    sortedDescB (a :: l) = true ↔
      (∀ b ∈ l.head?, b.created_at ≤ a.created_at) ∧ sortedDescB l = true := by
  cases l with
  | nil => simp [sortedDescB]
  | cons b t => simp [sortedDescB, Option.mem_def, and_comm]

theorem sortedDescB_take (n : Nat) (l : List AlertRecord)
    (h : sortedDescB l = true) : sortedDescB (l.take n) = true := by
  induction l generalizing n with
  | nil => simp [sortedDescB]
  | cons a t ih =>
    cases n with
    | zero => simp [sortedDescB]
    | succ m =>
      rw [List.take_succ_cons, sortedDescB_cons_iff]
      rw [sortedDescB_cons_iff] at h
      refine ⟨?_, ih m h.2⟩
      intro b hb
      cases m with
      | zero => simp at hb
      | succ k =>
        cases t with
        | nil => simp at hb
        | cons c t' =>
          rw [List.take_succ_cons] at hb
          simp only [List.head?_cons, Option.mem_def, Option.some.injEq] at hb
          subst hb
          exact h.1 c (by simp)

theorem foldl_processPost_cold_sorted (now : Nat) :
    ∀ (items : List RawPost) (st : IngestState),
      List.Chain' (fun p q : RawPost => bestTs now p ≤ bestTs now q) items →
      sortedDescB st.alerts = true →
      (∀ b ∈ st.alerts.head?, ∀ p ∈ items.head?, b.created_at ≤ bestTs now p) →
      sortedDescB (items.foldl (processPost now true) st).alerts = true := by
  intro items
  induction items with
  | nil => intro st _ hs _; exact hs
  | cons p rest ih =>
    intro st hchain hs hbound
    rw [List.foldl_cons]
    have hstep := List.chain'_cons'.mp hchain
    have halerts : (processPost now true st p).alerts
        = mkAlertRecord now (if pyStrip p.id = "" then "api_" ++ toString now
            else pyStrip p.id) p :: st.alerts.take 99 := by
      simp [processPost, save_alert_store_eq]
    apply ih
    · exact hstep.2
    · rw [halerts, sortedDescB_cons_iff]
      refine ⟨?_, sortedDescB_take 99 st.alerts hs⟩
      intro b hb
      have hhead : (st.alerts.take 99).head? = st.alerts.head? := by
        cases st.alerts <;> rfl
      rw [hhead] at hb
      exact hbound b hb p (by simp)
    · rw [halerts]
      intro b hb q hq
      simp only [List.head?_cons, Option.mem_def, Option.some.injEq] at hb
      subst hb
      show bestTs now p ≤ bestTs now q
      exact hstep.1 q hq

/-- C1 counterexample: `run_fetch_recent` performs no sort — from an
empty store, two raw posts supplied newest-first (created timestamps 10
then 5) are prepended in processing order, so the persisted store ends
up oldest-first and the adjacent descending-timestamp invariant fails. -/
theorem ingest_sort_invariant_cex :
    (run_fetch_recent_ingest 0 [] []
        [⟨"a", some 10, "x"⟩, ⟨"b", some 5, "y"⟩]).alerts.map (fun r => r.created_at)
      = [5, 10] ∧
    sortedDescB (run_fetch_recent_ingest 0 [] []
        [⟨"a", some 10, "x"⟩, ⟨"b", some 5, "y"⟩]).alerts = false :=
  ⟨rfl, rfl⟩

/-- C1 (amended): ingestion does not sort the raw posts; each admitted
record is prepended, so from an initially empty store the persisted
records hold the run's posts in reverse processing order, and the
adjacent descending-timestamp invariant holds when (and only when, per
the counterexample) the posts arrive with non-decreasing best-effort
created timestamps. -/
theorem ingest_no_sort_needs_ascending_input (now : Nat) (items : List RawPost)
    (h : List.Chain' (fun p q : RawPost => bestTs now p ≤ bestTs now q) items) :
    sortedDescB (run_fetch_recent_ingest now [] [] items).alerts = true := by
  have := foldl_processPost_cold_sorted now items ⟨[], [], 0⟩ h rfl (by simp)
  simpa [run_fetch_recent_ingest] using this

/-- C1 witness: the amended theorem on two posts with ascending
timestamps. -/
theorem ingest_no_sort_needs_ascending_input_witness :
    List.Chain' (fun p q : RawPost => bestTs 0 p ≤ bestTs 0 q)
      [⟨"x", some 1, ""⟩, ⟨"y", some 2, ""⟩] ∧
    sortedDescB (run_fetch_recent_ingest 0 [] []
      [⟨"x", some 1, ""⟩, ⟨"y", some 2, ""⟩]).alerts = true :=
  ⟨by simp [List.chain'_cons, bestTs],
   ingest_no_sort_needs_ascending_input 0 _ (by simp [List.chain'_cons, bestTs])⟩

/-- C2: re-running ingestion with the same posts after a completed run
that started from a non-empty store changes neither the store nor the
ledger and returns a count of 0: the first run put every non-empty
trimmed id into the ledger, and a post is admitted (store non-empty) iff
its id is non-empty and not in the ledger. -/
theorem ingest_idempotent (now1 now2 : Nat) (alerts : List AlertRecord)
    (processed : List String) (items : List RawPost) (h : alerts ≠ []) :
    run_fetch_recent_ingest now2
        (run_fetch_recent_ingest now1 alerts processed items).alerts
        (run_fetch_recent_ingest now1 alerts processed items).processed items
      = ⟨(run_fetch_recent_ingest now1 alerts processed items).alerts,
         (run_fetch_recent_ingest now1 alerts processed items).processed, 0⟩ := by
  have he : alerts.isEmpty = false := by simpa [List.isEmpty_iff] using h
  set r1 := run_fetch_recent_ingest now1 alerts processed items with hr1def
  have hr1 : r1 = items.foldl (processPost now1 false) ⟨alerts, processed, 0⟩ := by
    rw [hr1def]; simp only [run_fetch_recent_ingest, he]
  have hne : r1.alerts ≠ [] := by
    rw [hr1]; exact foldl_processPost_warm_alerts_ne now1 items _ h
  have hcov : ∀ p ∈ items, pyStrip p.id = "" ∨ pyStrip p.id ∈ r1.processed := by
    rw [hr1]; exact fun p hp => foldl_processPost_warm_covers now1 items _ p hp
  have he2 : r1.alerts.isEmpty = false := by
    simpa [List.isEmpty_iff] using hne
  show run_fetch_recent_ingest now2 r1.alerts r1.processed items
      = ⟨r1.alerts, r1.processed, 0⟩
  simp only [run_fetch_recent_ingest, he2]
  exact foldl_processPost_warm_id now2 items ⟨r1.alerts, r1.processed, 0⟩ hcov

/-- C2 witness: the theorem from a one-record store on a one-post
fetch. -/
theorem ingest_idempotent_witness :
    ([⟨"z", 3, "c", some "real", 0⟩] : List AlertRecord) ≠ [] ∧
    run_fetch_recent_ingest 1
        (run_fetch_recent_ingest 0 [⟨"z", 3, "c", some "real", 0⟩] []
          [⟨"n", some 7, "t"⟩]).alerts
        (run_fetch_recent_ingest 0 [⟨"z", 3, "c", some "real", 0⟩] []
          [⟨"n", some 7, "t"⟩]).processed
        [⟨"n", some 7, "t"⟩]
      = ⟨(run_fetch_recent_ingest 0 [⟨"z", 3, "c", some "real", 0⟩] []
            [⟨"n", some 7, "t"⟩]).alerts,
         (run_fetch_recent_ingest 0 [⟨"z", 3, "c", some "real", 0⟩] []
            [⟨"n", some 7, "t"⟩]).processed, 0⟩ :=
  ⟨by decide, ingest_idempotent 0 1 _ _ _ (by decide)⟩

theorem foldl_processPost_warm_nodup (now : Nat) (items : List RawPost) :
    ∀ st : IngestState,
      (st.alerts.map fun r => r.id).Nodup →
      (∀ r ∈ st.alerts, r.id ∈ st.processed) →
      ((items.foldl (processPost now false) st).alerts.map fun r => r.id).Nodup ∧
      ∀ r ∈ (items.foldl (processPost now false) st).alerts,
        r.id ∈ (items.foldl (processPost now false) st).processed := by
  induction items with
  | nil => intro st h1 h2; exact ⟨h1, h2⟩
  | cons p rest ih =>
    intro st h1 h2
    rw [List.foldl_cons]
    by_cases hc : pyStrip p.id ≠ "" ∧ pyStrip p.id ∉ st.processed
    · have hst : processPost now false st p
          = ⟨mkAlertRecord now (pyStrip p.id) p :: st.alerts.take 99,
             addProcessed st.processed (pyStrip p.id), st.count + 1⟩ := by
        simp only [processPost, Bool.false_eq_true, if_false]
        rw [if_pos hc, save_alert_store_eq]
      rw [hst]
      apply ih
      · simp only [List.map_cons, List.nodup_cons]
        constructor
        · intro hmem
          rcases List.mem_map.mp hmem with ⟨r, hr, hid⟩
          have hrmem : r ∈ st.alerts := List.take_subset _ _ hr
          have : r.id ∈ st.processed := h2 r hrmem
          rw [hid] at this
          exact hc.2 this
        · rw [List.map_take]
          exact h1.sublist (List.take_sublist 99 _)
      · intro r hr
        rcases List.mem_cons.mp hr with hre | hrt
        · subst hre
          exact mem_addProcessed_self _ _
        · have hrmem : r ∈ st.alerts := List.take_subset _ _ hrt
          exact mem_addProcessed_of_mem _ _ _ (h2 r hrmem)
    · have hst : processPost now false st p = st := by
        simp only [processPost, Bool.false_eq_true, if_false]
        rw [if_neg hc]
      rw [hst]
      exact ih st h1 h2

/-- C3 counterexample: on a cold start (empty store, empty ledger) the
admission is unconditional and does not consult the ids already added in
the same run, so two raw posts sharing id "1" produce two persisted
records with the same id. -/
theorem ingest_duplicate_id_cex :
    (run_fetch_recent_ingest 0 [] []
        [⟨"1", some 5, "a"⟩, ⟨"1", some 6, "b"⟩]).alerts.map (fun r => r.id)
      = ["1", "1"] ∧
    ¬ ((run_fetch_recent_ingest 0 [] []
        [⟨"1", some 5, "a"⟩, ⟨"1", some 6, "b"⟩]).alerts.map (fun r => r.id)).Nodup := by
  exact ⟨rfl, by decide⟩

/-- C3 (amended): when the store is non-empty at the start of the run,
its records carry pairwise-distinct ids and every stored id is already
in the processed-id ledger, ingestion preserves both invariants — the
post-ingest store never holds two records sharing an id, for any raw
post sequence including duplicates; on a cold start the guarantee fails
as the counterexample shows. -/
theorem ingest_warm_unique_ids (now : Nat) (alerts : List AlertRecord)
    (processed : List String) (items : List RawPost)
    (h1 : alerts ≠ []) (h2 : (alerts.map fun r => r.id).Nodup)
    (h3 : ∀ r ∈ alerts, r.id ∈ processed) :
    ((run_fetch_recent_ingest now alerts processed items).alerts.map fun r => r.id).Nodup ∧
    ∀ r ∈ (run_fetch_recent_ingest now alerts processed items).alerts,
      r.id ∈ (run_fetch_recent_ingest now alerts processed items).processed := by
  have he : alerts.isEmpty = false := by simpa [List.isEmpty_iff] using h1
  simp only [run_fetch_recent_ingest, he]
  exact foldl_processPost_warm_nodup now items ⟨alerts, processed, 0⟩ h2 h3

/-- C3 witness: the amended theorem from a one-record covered store on a
duplicate-free fetch. -/
theorem ingest_warm_unique_ids_witness :
    (([⟨"z", 3, "c", some "real", 0⟩] : List AlertRecord) ≠ [] ∧
     (([⟨"z", 3, "c", some "real", 0⟩] : List AlertRecord).map fun r => r.id).Nodup ∧
     ∀ r ∈ ([⟨"z", 3, "c", some "real", 0⟩] : List AlertRecord), r.id ∈ ["z"]) ∧
    (((run_fetch_recent_ingest 0 [⟨"z", 3, "c", some "real", 0⟩] ["z"]
        [⟨"n", some 7, "t"⟩]).alerts.map fun r => r.id).Nodup ∧
     ∀ r ∈ (run_fetch_recent_ingest 0 [⟨"z", 3, "c", some "real", 0⟩] ["z"]
        [⟨"n", some 7, "t"⟩]).alerts,
       r.id ∈ (run_fetch_recent_ingest 0 [⟨"z", 3, "c", some "real", 0⟩] ["z"]
        [⟨"n", some 7, "t"⟩]).processed) :=
  ⟨⟨by decide, by decide, by decide⟩,
   ingest_warm_unique_ids 0 _ _ _ (by decide) (by decide) (by decide)⟩

end TruthScraper
